import Mathlib

/-!
Verification of the general_web_scraper backend.

This file gives a shallow embedding of the contact-extraction and
data-processing code (src/backend/scraper.py and
src/backend/data_processor.py) and proves the behavioural claims about it.

An HTML document is modelled by the parse results the code actually
queries from BeautifulSoup: the anchor list, the data-email attribute
values, the classed elements, and the raw page source.  The regular
expressions of the source are embedded as executable matchers over
List Char with the leftmost / greedy / backtracking semantics of the
Python re module, specialised to the concrete patterns in the code.
-/

/-! ## Character classes of the regexes in scraper.py -/

def localChar (c : Char) : Bool :=
  c.isAlpha || c.isDigit || c == '.' || c == '_' || c == '%' || c == '+' || c == '-'

def domainChar (c : Char) : Bool :=
  c.isAlpha || c.isDigit || c == '.' || c == '-'

/-- The class written Bracket A-Z Pipe a-z Bracket in the source patterns: it
contains the letters and the literal pipe character. -/
def tldChar (c : Char) : Bool :=
  c.isAlpha || c == '|'

/-- The plain letters class of the obfuscated-email pattern. -/
def tldCharObf (c : Char) : Bool :=
  c.isAlpha

def wordChar (c : Char) : Bool :=
  c.isAlpha || c.isDigit || c == '_'

def wordB : Option Char → Bool
  | none => false
  | some c => wordChar c

/-! ## Substring and case-insensitive helpers -/

def lcontains (pat : List Char) : List Char → Bool
  | [] => pat.isEmpty
  | c :: rest => pat.isPrefixOf (c :: rest) || lcontains pat rest

/-- Python: pat in hay (plain substring test). -/
def strContainsSub (hay pat : String) : Bool :=
  lcontains pat.data hay.data

def lowerEq (a b : Char) : Bool :=
  a.toLower == b.toLower

def ciPre : List Char → List Char → Bool
  | [], _ => true
  | _ :: _, [] => false
  | p :: ps, c :: cs => lowerEq p c && ciPre ps cs

def lcontainsCI (pat : List Char) : List Char → Bool
  | [] => pat.isEmpty
  | c :: rest => ciPre pat (c :: rest) || lcontainsCI pat rest

/-- Case-insensitive substring test: the re.compile(lit, re.I) attribute
filters used with soup.find_all. -/
def strContainsCI (hay pat : String) : Bool :=
  lcontainsCI pat.data hay.data

/-- Python str.lower(), embedded over the character list (the library
String.toLower is definitionally opaque to kernel evaluation). -/
def strLower (s : String) : String :=
  String.mk (s.data.map Char.toLower)

/-- Python str.strip(): drop whitespace from both ends. -/
def pyStrip (s : String) : String :=
  String.mk (((s.data.dropWhile (fun c => c.isWhitespace)).reverse.dropWhile
    (fun c => c.isWhitespace)).reverse)

def ciDrop : List Char → List Char → Option (List Char)
  | [], cs => some cs
  | _ :: _, [] => none
  | p :: ps, c :: cs => if lowerEq p c then ciDrop ps cs else none

/-! ## The standard email pattern

Pattern: local one-or-more, at sign, domain one-or-more, dot, tld two-or-more,
with greedy backtracking exactly as the re module performs it. -/

/-- Tld matcher without a trailing word boundary (the mailto pattern):
the maximal run of tld characters, of length at least two. -/
def restTld (rest : List Char) : Option (List Char × List Char) :=
  let t := rest.takeWhile tldChar
  let r := rest.dropWhile tldChar
  if t.length ≥ 2 then some (t, r) else none

/-- Tld matcher with a trailing word boundary: try tld lengths from the
maximal run downwards (greedy), keeping the first length of at least two
whose following position is a word boundary. -/
def tryTldBound (t r : List Char) : Nat → Option (List Char × List Char)
  | 0 => none
  | m + 1 =>
    if m + 1 ≥ 2 then
      let lastC := t[m]?
      let nextC := match t[m + 1]? with
        | some c => some c
        | none => r.head?
      if wordB lastC != wordB nextC then some (t.take (m + 1), t.drop (m + 1) ++ r)
      else tryTldBound t r m
    else none

def restTldBound (rest : List Char) : Option (List Char × List Char) :=
  let t := rest.takeWhile tldChar
  let r := rest.dropWhile tldChar
  tryTldBound t r t.length

/-- Greedy backtracking over the split of the maximal domain-char run into
the domain-plus part and the literal dot: domain lengths are tried from the
run length downwards. -/
def tryDomSplits (tldM : List Char → Option (List Char × List Char))
    (d1 r3 : List Char) : Nat → Option (List Char × List Char × List Char)
  | 0 => none
  | j + 1 =>
    match d1.drop (j + 1) ++ r3 with
    | '.' :: rest2 =>
      match tldM rest2 with
      | some (t, rr) => some (d1.take (j + 1), t, rr)
      | none => tryDomSplits tldM d1 r3 j
    | _ => tryDomSplits tldM d1 r3 j

/-- Match the email pattern anchored at the start of cs (no leading
boundary); returns the matched characters and the rest. -/
def emailAt (tldM : List Char → Option (List Char × List Char)) (cs : List Char) :
    Option (List Char × List Char) :=
  let l1 := cs.takeWhile localChar
  let r1 := cs.dropWhile localChar
  if l1.isEmpty then none
  else
    match r1 with
    | '@' :: r2 =>
      let d1 := r2.takeWhile domainChar
      let r3 := r2.dropWhile domainChar
      match tryDomSplits tldM d1 r3 d1.length with
      | some (dm, t, rr) => some (l1 ++ '@' :: (dm ++ '.' :: t), rr)
      | none => none
    | _ => none

/-- re.findall of the word-bounded email pattern: scan left to right,
non-overlapping, leading and trailing word boundaries enforced. -/
def emailScan : Nat → Option Char → List Char → List (List Char)
  | 0, _, _ => []
  | _, _, [] => []
  | f + 1, prev, c :: rest =>
    if wordB prev != wordChar c then
      match emailAt restTldBound (c :: rest) with
      | some (m, rr) => m :: emailScan f m.getLast? rr
      | none => emailScan f (some c) rest
    else emailScan f (some c) rest

def emailFindAll (s : String) : List String :=
  (emailScan s.data.length none s.data).map (fun cs => String.mk cs)

/-! ## Generic leftmost search -/

def scanFirst (f : List Char → Option α) : Nat → List Char → Option α
  | 0, _ => none
  | _, [] => none
  | fu + 1, c :: rest =>
    match f (c :: rest) with
    | some g => some g
    | none => scanFirst f fu rest

/-! ## Method 1: the mailto search pattern -/

def mailtoChars : List Char := ['m', 'a', 'i', 'l', 't', 'o', ':']

def mailtoAt (cs : List Char) : Option (List Char) :=
  match ciDrop mailtoChars cs with
  | some tail =>
    match emailAt restTld tail with
    | some (m, _) => some m
    | none => none
  | none => none

/-- re.search of the mailto-email pattern with re.I over an href value. -/
def mailtoEmail (href : String) : Option String :=
  (scanFirst mailtoAt href.data.length href.data).map (fun cs => String.mk cs)

/-! ## Method 4: the obfuscated email pattern -/

def skipWs (cs : List Char) : List Char :=
  cs.dropWhile (fun c => c.isWhitespace)

/-- Matches the noise part: whitespace-star, one optional bracket from bs,
whitespace-star.  Deterministic because the bracket characters cannot also
start the continuation required by the pattern. -/
def skipNoise (bs : List Char) (cs : List Char) : List Char :=
  let c1 := skipWs cs
  match c1 with
  | b :: r => if bs.contains b then skipWs r else c1
  | [] => c1

def obfTrySplits (d1 r3 : List Char) : Nat → Option (List Char × List Char)
  | 0 => none
  | j + 1 =>
    match skipNoise ['[', '('] (d1.drop (j + 1) ++ r3) with
    | '.' :: rest2 =>
      let rest3 := skipNoise [']', ')'] rest2
      let t := rest3.takeWhile tldCharObf
      if t.length ≥ 2 then some (d1.take (j + 1), t)
      else obfTrySplits d1 r3 j
    | _ => obfTrySplits d1 r3 j

/-- Match the obfuscated pattern anchored at the start; the three captured
groups are local part, domain part, tld. -/
def obfAt (cs : List Char) : Option (List Char × List Char × List Char) :=
  let l1 := cs.takeWhile localChar
  let r1 := cs.dropWhile localChar
  if l1.isEmpty then none
  else
    match skipNoise ['[', '('] r1 with
    | '@' :: r2 =>
      let r2b := skipNoise [']', ')'] r2
      let d1 := r2b.takeWhile domainChar
      let r3 := r2b.dropWhile domainChar
      if d1.isEmpty then none
      else
        match obfTrySplits d1 r3 d1.length with
        | some (dm, t) => some (l1, dm, t)
        | none => none
    | _ => none

/-! ## Denylists and business tokens (literal lists from the source) -/

def excludedEmailSubstrings3 : List String :=
  ["example.com", "domain.com", "email.com", "test.com", "wix.com",
   "sitelock.com", "placeholder", "yoursite", "yourdomain"]

def excludedEmailSubstrings5 : List String :=
  ["example.com", "domain.com", "email.com", "test.com", "wix.com",
   "sitelock.com", "schema.org", "w3.org", "placeholder", "@2x.png", "@3x.png",
   "googletagmanager", "analytics", "facebook.com", "twitter.com", "instagram.com"]

def businessTokens : List String :=
  ["info", "contact", "hello", "support", "mail", "inquiry", "sales", "admin"]

/-! ## The HTML document model -/

structure Anchor where
  href : String
  text : String
deriving DecidableEq

structure Elem where
  tag : String
  cls : String
  text : String
deriving DecidableEq

structure HtmlDoc where
  anchors : List Anchor
  dataEmails : List String
  elements : List Elem
  pageSource : String
deriving DecidableEq

/-! ## The email cascade of extract_contact_info_from_website -/

def method1Email (anchors : List Anchor) : Option String :=
  (anchors.filter (fun a => strContainsCI a.href "mailto:")).findSome?
    (fun a => (mailtoEmail a.href).map (fun e => strLower e))

def method2Email (ds : List String) : Option String :=
  ds.findSome? (fun p =>
    if p.data.contains '@' && p.data.contains '.' then some (strLower p) else none)

def emailSectionElems (els : List Elem) : List Elem :=
  els.filter (fun el =>
    (["footer", "div", "section", "header"].contains el.tag) &&
    (["contact", "footer", "email", "info", "reach"].any
      (fun k => strContainsSub (strLower el.cls) k)))

def validEmails3 (txt : String) : List String :=
  (emailFindAll txt).filter
    (fun e => !(excludedEmailSubstrings3.any (fun p => strContainsSub (strLower e) p)))

def method3Loop : List Elem → Option String
  | [] => none
  | s :: rest =>
    match validEmails3 s.text with
    | e :: _ => some (strLower e)
    | [] => method3Loop rest

def method3Email (els : List Elem) : Option String :=
  method3Loop (emailSectionElems els)

def method4Email (src : String) : Option String :=
  match scanFirst obfAt src.data.length src.data with
  | some (l, d, t) =>
    some (strLower (String.mk l ++ "@" ++ String.mk d ++ "." ++ String.mk t))
  | none => none

def validEmails5 (src : String) : List String :=
  (emailFindAll src).filter
    (fun e => !(excludedEmailSubstrings5.any (fun p => strContainsSub (strLower e) p)))

def bizHit (e : String) : Bool :=
  businessTokens.any (fun p => strContainsSub (strLower e) p)

def method5Email (src : String) : Option String :=
  match (validEmails5 src).find? bizHit with
  | some e => some (strLower e)
  | none => (validEmails5 src).head?.map (fun e => strLower e)

/-! ## The phone cascade -/

def telPhone (anchors : List Anchor) : Option String :=
  (anchors.filter (fun a => strContainsCI a.href "tel:")).findSome? (fun a =>
    let ds := a.href.data.filter (fun c => c.isDigit)
    if ds.length ≥ 10 then some (String.mk ds) else none)

def sixNine (c : Char) : Bool :=
  '6' ≤ c && c ≤ '9'

def takeDigits : Nat → List Char → Option (List Char × List Char)
  | 0, cs => some ([], cs)
  | _ + 1, [] => none
  | n + 1, c :: cs =>
    if c.isDigit then (takeDigits n cs).map (fun dr => (c :: dr.1, dr.2)) else none

def p1Sep (c : Char) : Bool :=
  c == '-' || c.isWhitespace

def pSep (c : Char) : Bool :=
  c == '-' || c == '.' || c.isWhitespace

def bareMobile (cs : List Char) : Bool :=
  match cs with
  | c :: r => sixNine c && (takeDigits 9 r).isSome
  | [] => false

/-- First phone pattern: optional group of plus-nine-one and a separator,
then a ten digit mobile.  re.findall returns the captured group, which is
the optional prefix, possibly empty. -/
def p1At (cs : List Char) : Option (List Char) :=
  match cs with
  | '+' :: '9' :: '1' :: r =>
    (match r with
     | s :: r2 =>
       if p1Sep s && bareMobile r2 then some ['+', '9', '1', s]
       else if bareMobile r then some ['+', '9', '1'] else none
     | [] => none)
  | cs' => if bareMobile cs' then some [] else none

/-- Second phone pattern: literal plus-nine-one, optional separator, ten
digits; full match returned. -/
def p2At (cs : List Char) : Option (List Char) :=
  match cs with
  | '+' :: '9' :: '1' :: r =>
    (match r with
     | s :: r2 =>
       if pSep s then
         match takeDigits 10 r2 with
         | some (d, _) => some ('+' :: '9' :: '1' :: s :: d)
         | none =>
           match takeDigits 10 r with
           | some (d, _) => some ('+' :: '9' :: '1' :: d)
           | none => none
       else
         match takeDigits 10 r with
         | some (d, _) => some ('+' :: '9' :: '1' :: d)
         | none => none
     | [] => none)
  | _ => none

/-- Third phone pattern: three digits starting six-to-nine, optional
separator, three digits, optional separator, four digits; full match. -/
def p3At (cs : List Char) : Option (List Char) :=
  match cs with
  | c :: r =>
    if sixNine c then
      match takeDigits 2 r with
      | some (d2, r2) =>
        let step3 : List Char → Option (List Char) := fun l2 =>
          (takeDigits 4 l2).map (fun dr => dr.1)
        let step2 : List Char → Option (List Char) := fun l =>
          match takeDigits 3 l with
          | some (d3, r3) =>
            (match r3 with
             | s2 :: r4 =>
               if pSep s2 then
                 match step3 r4 with
                 | some d4 => some (d3 ++ s2 :: d4)
                 | none => (step3 r3).map (fun d4 => d3 ++ d4)
               else (step3 r3).map (fun d4 => d3 ++ d4)
             | [] => (step3 r3).map (fun d4 => d3 ++ d4))
          | none => none
        (match r2 with
         | s1 :: r3 =>
           if pSep s1 then
             match step2 r3 with
             | some m => some (c :: d2 ++ s1 :: m)
             | none => (step2 r2).map (fun m => c :: d2 ++ m)
           else (step2 r2).map (fun m => c :: d2 ++ m)
         | [] => (step2 r2).map (fun m => c :: d2 ++ m))
      | none => none
    else none
  | [] => none

def phoneSectionElems (els : List Elem) : List Elem :=
  els.filter (fun el =>
    (["footer", "div", "section"].contains el.tag) &&
    (["contact", "footer", "phone", "tel", "call"].any
      (fun k => strContainsSub (strLower el.cls) k)))

def phoneSearchText (d : HtmlDoc) : String :=
  let els := phoneSectionElems d.elements
  if els.isEmpty then d.pageSource
  else String.intercalate " " (els.map (fun el => el.text))

def phoneDigitsOf (m : List Char) : List Char :=
  m.filter (fun c => c.isDigit)

/-- One iteration of the pattern loop: if the findall result is nonempty the
phone variable is overwritten with the digits of the first match; the flag
records whether the loop breaks (at least ten digits). -/
def stepPhone (cur : Option (List Char)) (res : Option (List Char)) :
    Option (List Char) × Bool :=
  match res with
  | some m =>
    let d := phoneDigitsOf m
    (some d, decide (d.length ≥ 10))
  | none => (cur, false)

/-- The three-pattern loop over the scoped search text, including the
carry-over of short intermediate values exactly as the source performs it. -/
def phonePatternPhone (txt : String) : Option String :=
  let cs := txt.data
  let n := cs.length
  let s1 := stepPhone none (scanFirst p1At n cs)
  let final :=
    if s1.2 then s1.1
    else
      let s2 := stepPhone s1.1 (scanFirst p2At n cs)
      if s2.2 then s2.1
      else (stepPhone s2.1 (scanFirst p3At n cs)).1
  final.map (fun d => String.mk d)

structure ContactInfo where
  email : Option String
  phone : Option String
deriving DecidableEq

def extractContactInfoFromWebsite (d : HtmlDoc) : ContactInfo :=
  let e1 := method1Email d.anchors
  let e2 := match e1 with | some _ => e1 | none => method2Email d.dataEmails
  let e3 := match e2 with | some _ => e2 | none => method3Email d.elements
  let e4 := match e3 with | some _ => e3 | none => method4Email d.pageSource
  let e5 := match e4 with | some _ => e4 | none => method5Email d.pageSource
  let p1 := telPhone d.anchors
  let p2 := match p1 with | some _ => p1 | none => phonePatternPhone (phoneSearchText d)
  { email := e5, phone := p2 }

/-! ## find_contact_pages -/

def contactKeywords : List String :=
  ["contact", "about", "reach", "get-in-touch", "connect", "support"]

def anchorQualifies (a : Anchor) : Bool :=
  contactKeywords.any (fun k =>
    strContainsSub (strLower a.href) k || strContainsSub (strLower a.text) k)

def schemeChars (c : Char) : Bool :=
  c.isAlpha || c.isDigit || c == '+' || c == '-' || c == '.'

/-- Model of the scheme recognition of urllib.parse: a leading letter, then
letters, digits, plus, minus or dot, then a colon; returns the remainder. -/
def schemeSplit (cs : List Char) : Option (List Char) :=
  match cs with
  | c :: r =>
    if c.isAlpha then
      match r.dropWhile schemeChars with
      | ':' :: after => some after
      | _ => none
    else none
  | [] => none

def netChar (c : Char) : Bool :=
  c != '/' && c != '?' && c != '#'

/-- Model of urllib.parse.urlparse(u).netloc. -/
def netlocOf (u : String) : String :=
  match u.data with
  | '/' :: '/' :: r => String.mk (r.takeWhile netChar)
  | cs =>
    match schemeSplit cs with
    | some after =>
      match after with
      | '/' :: '/' :: r => String.mk (r.takeWhile netChar)
      | _ => ""
    | none => ""

def schemeOf (u : String) : String :=
  match schemeSplit u.data with
  | some _ => String.mk (u.data.takeWhile (fun c => c != ':'))
  | none => ""

/-- The longest prefix of cs ending in a slash, or the empty list. -/
def lastSlashPre (cs : List Char) : List Char :=
  match cs with
  | [] => []
  | c :: r =>
    let tail := lastSlashPre r
    if tail.isEmpty then (if c == '/' then ['/'] else []) else c :: tail

/-- Simplified model of urllib.parse.urljoin, adequate for the absolute,
network-relative, root-relative and document-relative references the
pipeline passes to it (RFC 3986 dot-segment normalisation omitted). -/
def pyUrljoin (base rel : String) : String :=
  if rel.isEmpty then base
  else if (schemeSplit rel.data).isSome then rel
  else
    match rel.data with
    | '/' :: '/' :: _ => schemeOf base ++ ":" ++ rel
    | '/' :: _ => schemeOf base ++ "://" ++ netlocOf base ++ rel
    | _ =>
      let pre := schemeOf base ++ "://" ++ netlocOf base
      let basePath := base.data.drop pre.length
      let dir := lastSlashPre basePath
      pre ++ (if dir.isEmpty then "/" else String.mk dir) ++ rel

/-- The candidate URLs appended by the scan loop of find_contact_pages, in
anchor order: the keyword test is on the lowercased href and link text, the
join uses the original href, and only same-netloc results are kept. -/
def candidateContactPages (anchors : List Anchor) (baseUrl : String) : List String :=
  let baseDomain := netlocOf baseUrl
  anchors.filterMap (fun a =>
    if anchorQualifies a then
      let full := pyUrljoin baseUrl a.href
      if netlocOf full == baseDomain then some full else none
    else none)

def dedupKeepFirst (seen : List String) : List String → List String
  | [] => []
  | x :: xs =>
    if seen.contains x then dedupKeepFirst seen xs
    else x :: dedupKeepFirst (x :: seen) xs

/-- find_contact_pages: candidates, first-seen dedup, first three.  The body
is total, so the except branch of the source (return empty list) is never
taken in the embedding. -/
def findContactPages (anchors : List Anchor) (baseUrl : String) : List String :=
  (dedupKeepFirst [] (candidateContactPages anchors baseUrl)).take 3

/-! ## data_processor.py -/

/-- validate_email: an anchored re.match of the full email pattern; the
dollar anchor also accepts one trailing newline. -/
def tldToEnd (rest : List Char) : Bool :=
  let t := rest.takeWhile tldChar
  let r := rest.dropWhile tldChar
  (r == [] || r == ['\n']) && t.length ≥ 2

def validateSplits (d1 r3 : List Char) : Nat → Bool
  | 0 => false
  | j + 1 =>
    (match d1.drop (j + 1) ++ r3 with
     | '.' :: rest2 => tldToEnd rest2
     | _ => false) || validateSplits d1 r3 j

def validateEmail (s : String) : Bool :=
  match s.data with
  | [] => false
  | cs =>
    let l1 := cs.takeWhile localChar
    let r1 := cs.dropWhile localChar
    if l1.isEmpty then false
    else
      match r1 with
      | '@' :: r2 =>
        let d1 := r2.takeWhile domainChar
        let r3 := r2.dropWhile domainChar
        validateSplits d1 r3 d1.length
      | _ => false

def stripToDigits (s : String) : List Char :=
  s.data.filter (fun c => c.isDigit)

def formatPhone : Option String → Option String
  | none => none
  | some s =>
    if s = "" then none
    else
      let d := stripToDigits s
      if d.length = 10 then some (String.mk ('+' :: '9' :: '1' :: '-' :: d))
      else if d.length = 12 ∧ d.take 2 = ['9', '1'] then
        some (String.mk ('+' :: (d.take 2 ++ '-' :: d.drop 2)))
      else if d.length > 10 then
        some (String.mk ('+' :: (d.take 2 ++ '-' :: d.drop 2)))
      else some s

/-- A Python string-or-None value; fields of raw records are additionally
wrapped in Option to model a possibly absent dictionary key. -/
structure RawRecord where
  business_name : Option (Option String)
  email : Option (Option String)
  phone : Option (Option String)
  website : Option (Option String)
  source_url : Option (Option String)
deriving DecidableEq

structure CleanedRecord where
  business_name : Option String
  email : Option String
  phone : Option String
  website : Option String
  source_url : Option String
deriving DecidableEq

/-- Python truthiness of a string-or-None value. -/
def pyTruthy : Option String → Bool
  | none => false
  | some s => !(s == "")

def cleanContactData (raw : RawRecord) : CleanedRecord :=
  let bn0 : Option String :=
    match raw.business_name with
    | none => some "N/A"
    | some v => v
  let bn : Option String :=
    match bn0 with
    | some s => some (if s == "" then s else pyStrip s)
    | none => none
  let em0 : Option String := match raw.email with | none => none | some v => v
  let em : Option String :=
    match em0 with
    | some s => if !(s == "") && validateEmail s then some (strLower (pyStrip s)) else none
    | none => none
  let ph := formatPhone (match raw.phone with | none => none | some v => v)
  let wb : Option String :=
    match (match raw.website with | none => none | some v => v) with
    | some s => if s == "" then none else some (pyStrip s)
    | none => none
  let su : Option String :=
    match raw.source_url with
    | none => some ""
    | some v => v
  { business_name := bn, email := em, phone := ph, website := wb, source_url := su }

/-- Python truthiness of the three-component identifier tuple. -/
def keyTruthy (k : String × Option String × Option String) : Bool :=
  !(k.1 == "") || pyTruthy k.2.1 || pyTruthy k.2.2

def keyMem (k : String × Option String × Option String) :
    List (String × Option String × Option String) → Bool
  | [] => false
  | x :: xs => k == x || keyMem k xs

/-- remove_duplicates: the identifier lowercases the business name, which
raises AttributeError when that value is None. -/
def removeDuplicatesAux (seen : List (String × Option String × Option String)) :
    List CleanedRecord → Except String (List CleanedRecord)
  | [] => .ok []
  | item :: rest =>
    match item.business_name with
    | none => .error "AttributeError: NoneType object has no attribute lower"
    | some name =>
      let k := (strLower name, item.email, item.phone)
      if !(keyTruthy k) then removeDuplicatesAux seen rest
      else if keyMem k seen then removeDuplicatesAux seen rest
      else (removeDuplicatesAux (k :: seen) rest).map (fun l => item :: l)

def removeDuplicates (l : List CleanedRecord) : Except String (List CleanedRecord) :=
  removeDuplicatesAux [] l

structure ScrapeResponse where
  status : String
  search_term : String
  results_count : Nat
  data : List CleanedRecord
deriving DecidableEq

/-- structure_response; the wall-clock timestamp field is omitted from the
model since no claim concerns it. -/
def structureResponse (cleanedData : List CleanedRecord) (searchTerm : String) :
    ScrapeResponse :=
  { status := "success", search_term := searchTerm,
    results_count := cleanedData.length, data := cleanedData }

def hasAnyContact (r : CleanedRecord) : Bool :=
  pyTruthy r.email || pyTruthy r.phone || pyTruthy r.website

def processScrapedData (raws : List RawRecord) (searchTerm : String) :
    Except String ScrapeResponse :=
  let cleaned := raws.map cleanContactData
  match removeDuplicates cleaned with
  | .error m => .error m
  | .ok uniq => .ok (structureResponse (uniq.filter hasAnyContact) searchTerm)


/-! ## Spec-side definitions used for refinement statements -/

/-- The deduplication key of a record as the spec words it: lowercased
business name, email, phone. -/
def specKey (r : CleanedRecord) : String × Option String × Option String :=
  (strLower (r.business_name.getD ""), r.email, r.phone)

/-- Spec-worded first-wins deduplication: keep a record, discard every later
record carrying an equal key (fuelled structural recursion; the fuel is
always instantiated with the list length, which suffices). -/
def dropLaterDups : Nat → List CleanedRecord → List CleanedRecord
  | 0, _ => []
  | _ + 1, [] => []
  | n + 1, r :: rest =>
    r :: dropLaterDups n (rest.filter (fun x => !(specKey x == specKey r)))

/-- The spec's description of remove_duplicates: drop the records whose key
is entirely empty, then keep the first record of each key. -/
def specFirstWins (l : List CleanedRecord) : List CleanedRecord :=
  dropLaterDups l.length (l.filter (fun r => keyTruthy (specKey r)))

/-- The local part of an address as the spec speaks of it: the characters
before the at sign. -/
def localPartOf (e : String) : String :=
  String.mk (e.data.takeWhile (fun c => c != '@'))

def c4Anchor : Anchor := { href := "mailto:Foo@Bar.com", text := "mail us" }

def c4Doc : HtmlDoc :=
  { anchors := [c4Anchor], dataEmails := [], elements := [], pageSource := "" }

/-- The scenario-3 document of the spec: its only email-like string is of
the image-retina form. -/
def c1Doc : HtmlDoc :=
  { anchors := [], dataEmails := [], elements := [], pageSource := "image@2x.png" }

/-- A document whose page source holds two plain regex matches, neither
with a business-token local part, the second with a business token inside
its domain; every stronger tier finds nothing on it. -/
def c2Doc : HtmlDoc :=
  { anchors := [], dataEmails := [], elements := [],
    pageSource := "bob@zzz.q|w zed@qmail.x|y" }

def rawNoneName : RawRecord :=
  { business_name := some none, email := some none, phone := some none,
    website := some none, source_url := some (some "u") }

def rawOk : RawRecord :=
  { business_name := some (some "Acme"), email := some (some "a@b.com"),
    phone := some none, website := some none, source_url := some (some "u") }

def cleanedOk : CleanedRecord :=
  { business_name := some "Acme", email := some "a@b.com", phone := none,
    website := none, source_url := some "u" }

def recA : CleanedRecord :=
  { business_name := some "Acme", email := some "a@b.com",
    phone := some "+91-9876543210", website := none, source_url := some "u1" }

def recB : CleanedRecord :=
  { business_name := some "Acme", email := some "a@b.com",
    phone := some "+91-9876543210", website := none, source_url := some "u2" }

def c1Elems : List Elem :=
  [{ tag := "footer", cls := "footer", text := "write info@shop.com" }]

/-- The raw record the orchestrator would build from the scenario-3
extraction result. -/
def c1Raw : RawRecord :=
  { business_name := some (some "B"),
    email := some (extractContactInfoFromWebsite c1Doc).email,
    phone := some none, website := some none, source_url := some (some "u") }

/-- A document whose only regex match carries no business token at all. -/
def c2DocB : HtmlDoc :=
  { anchors := [], dataEmails := [], elements := [], pageSource := "bob@zzz.q|w" }

/-! ## Helper lemmas -/

theorem string_mk_cons_ne_empty (c : Char) (l : List Char) : String.mk (c :: l) ≠ "" := by
  intro h
  have h2 := congrArg String.data h
  simp at h2

theorem formatPhone_some_eq (s : String) (hs : ¬ s = "") :
    formatPhone (some s) =
      (if (stripToDigits s).length = 10 then
        some (String.mk ('+' :: '9' :: '1' :: '-' :: stripToDigits s))
      else if (stripToDigits s).length = 12 ∧ (stripToDigits s).take 2 = ['9', '1'] then
        some (String.mk ('+' :: ((stripToDigits s).take 2 ++ '-' :: (stripToDigits s).drop 2)))
      else if (stripToDigits s).length > 10 then
        some (String.mk ('+' :: ((stripToDigits s).take 2 ++ '-' :: (stripToDigits s).drop 2)))
      else some s) := by
  simp only [formatPhone, if_neg hs]

theorem filter_digits_fmt (t r : List Char)
    (ht : t.filter (fun c => c.isDigit) = t) (hr : r.filter (fun c => c.isDigit) = r) :
    ('+' :: (t ++ '-' :: r)).filter (fun c => c.isDigit) = t ++ r := by
  have h1 : ('+').isDigit = false := by decide
  have h4 : ('-').isDigit = false := by decide
  simp [List.filter_cons, List.filter_append, h1, h4, ht, hr]

theorem stripToDigits_mk (l : List Char) :
    stripToDigits (String.mk l) = l.filter (fun c => c.isDigit) := rfl

/-- C6: for a non-empty input, format_phone strips to digits d and returns
plus-91-dash-d when d has 10 digits, plus-91-dash and the last ten when d
has 12 digits starting 91, plus, the first two digits, dash, the rest for
any other count of at least 10, and the unchanged input when d has fewer
than 10 digits; a null or empty input gives null. -/
theorem spec_C6_formatPhone :
    formatPhone none = none ∧ formatPhone (some "") = none ∧
    ∀ s : String, s ≠ "" →
      ((stripToDigits s).length = 10 →
        formatPhone (some s) = some (String.mk ('+' :: '9' :: '1' :: '-' :: stripToDigits s))) ∧
      ((stripToDigits s).length = 12 → (stripToDigits s).take 2 = ['9', '1'] →
        formatPhone (some s) =
          some (String.mk ('+' :: '9' :: '1' :: '-' :: (stripToDigits s).drop 2))) ∧
      ((stripToDigits s).length ≥ 10 → (stripToDigits s).length ≠ 10 →
        ¬((stripToDigits s).length = 12 ∧ (stripToDigits s).take 2 = ['9', '1']) →
        formatPhone (some s) =
          some (String.mk ('+' :: ((stripToDigits s).take 2 ++ '-' :: (stripToDigits s).drop 2)))) ∧
      ((stripToDigits s).length < 10 → formatPhone (some s) = some s) := by
  refine ⟨rfl, rfl, fun s hs => ?_⟩
  rw [formatPhone_some_eq s hs]
  refine ⟨fun h10 => by rw [if_pos h10], fun h12 h91 => ?_, fun hge hne hnot => ?_, fun hlt => ?_⟩
  · rw [if_neg (by omega), if_pos ⟨h12, h91⟩, h91]
    simp
  · rw [if_neg hne, if_neg hnot, if_pos (by omega)]
  · rw [if_neg (by omega), if_neg (fun hc => by omega), if_neg (by omega)]

theorem spec_C6_formatPhone_witness :
    formatPhone (some "98765 43210") =
      some (String.mk ('+' :: '9' :: '1' :: '-' :: stripToDigits "98765 43210")) :=
  ((spec_C6_formatPhone.2.2 "98765 43210" (by decide)).1) (by decide)

theorem filter_digits_self (d : List Char)
    (hd : ∀ c ∈ d, c.isDigit = true) : d.filter (fun c => c.isDigit) = d :=
  List.filter_eq_self.mpr hd

/-- C7: phone normalization is idempotent. -/
theorem spec_C7_formatPhone_idem (s : Option String) :
    formatPhone (formatPhone s) = formatPhone s := by
  match s with
  | none => rfl
  | some s =>
    by_cases hs : s = ""
    · subst hs; rfl
    · have hd : ∀ c ∈ stripToDigits s, c.isDigit = true := fun c hc => by
        have := List.of_mem_filter hc
        simpa using this
      have hfd : (stripToDigits s).filter (fun c => c.isDigit) = stripToDigits s :=
        filter_digits_self _ hd
      have hft : ((stripToDigits s).take 2).filter (fun c => c.isDigit) = (stripToDigits s).take 2 :=
        filter_digits_self _ (fun c hc => hd c (List.mem_of_mem_take hc))
      have hfr : ((stripToDigits s).drop 2).filter (fun c => c.isDigit) = (stripToDigits s).drop 2 :=
        filter_digits_self _ (fun c hc => hd c (List.mem_of_mem_drop hc))
      rw [formatPhone_some_eq s hs]
      by_cases h10 : (stripToDigits s).length = 10
      · rw [if_pos h10]
        have hne := string_mk_cons_ne_empty '+' ('9' :: '1' :: '-' :: stripToDigits s)
        rw [formatPhone_some_eq _ hne]
        have hstrip : stripToDigits (String.mk ('+' :: '9' :: '1' :: '-' :: stripToDigits s)) =
            '9' :: '1' :: stripToDigits s := by
          rw [stripToDigits_mk]
          have := filter_digits_fmt (['9', '1']) (stripToDigits s) (by decide) hfd
          simpa using this
        rw [hstrip]
        have hlen : ('9' :: '1' :: stripToDigits s).length = 12 := by simp [h10]
        rw [if_neg (by omega), if_pos ⟨hlen, by simp⟩]
        simp
      · by_cases h12 : (stripToDigits s).length = 12 ∧ (stripToDigits s).take 2 = ['9', '1']
        · rw [if_neg h10, if_pos h12]
          have hne := string_mk_cons_ne_empty '+'
            ((stripToDigits s).take 2 ++ '-' :: (stripToDigits s).drop 2)
          rw [formatPhone_some_eq _ hne]
          have hstrip : stripToDigits (String.mk ('+' ::
              ((stripToDigits s).take 2 ++ '-' :: (stripToDigits s).drop 2))) = stripToDigits s := by
            rw [stripToDigits_mk, filter_digits_fmt _ _ hft hfr, List.take_append_drop]
          rw [hstrip, if_neg h10, if_pos h12]
        · by_cases hgt : (stripToDigits s).length > 10
          · rw [if_neg h10, if_neg h12, if_pos hgt]
            have hne := string_mk_cons_ne_empty '+'
              ((stripToDigits s).take 2 ++ '-' :: (stripToDigits s).drop 2)
            rw [formatPhone_some_eq _ hne]
            have hstrip : stripToDigits (String.mk ('+' ::
                ((stripToDigits s).take 2 ++ '-' :: (stripToDigits s).drop 2))) = stripToDigits s := by
              rw [stripToDigits_mk, filter_digits_fmt _ _ hft hfr, List.take_append_drop]
            rw [hstrip, if_neg h10, if_neg h12, if_pos hgt]
          · rw [if_neg h10, if_neg h12, if_neg hgt]
            rw [formatPhone_some_eq s hs, if_neg h10, if_neg h12, if_neg hgt]

/-- C10: extraction is total (the record always carries optional email and
phone fields) and each field is null exactly when every tier of its cascade
found nothing. -/
theorem spec_C10_extract_null_iff (d : HtmlDoc) :
    ((extractContactInfoFromWebsite d).email = none ↔
      method1Email d.anchors = none ∧ method2Email d.dataEmails = none ∧
      method3Email d.elements = none ∧ method4Email d.pageSource = none ∧
      method5Email d.pageSource = none) ∧
    ((extractContactInfoFromWebsite d).phone = none ↔
      telPhone d.anchors = none ∧ phonePatternPhone (phoneSearchText d) = none) := by
  constructor
  · cases h1 : method1Email d.anchors <;>
    cases h2 : method2Email d.dataEmails <;>
    cases h3 : method3Email d.elements <;>
    cases h4 : method4Email d.pageSource <;>
    cases h5 : method5Email d.pageSource <;>
    simp [extractContactInfoFromWebsite, h1, h2, h3, h4, h5]
  · cases hp1 : telPhone d.anchors <;>
    cases hp2 : phonePatternPhone (phoneSearchText d) <;>
    simp [extractContactInfoFromWebsite, hp1, hp2]

theorem ciDrop_ciPre (p : List Char) :
    ∀ cs t, ciDrop p cs = some t → ciPre p cs = true := by
  induction p with
  | nil => intro cs t _; rfl
  | cons x xs ih =>
    intro cs t h
    cases cs with
    | nil => exact absurd h (by simp [ciDrop])
    | cons c rest =>
      unfold ciDrop at h
      by_cases hle : lowerEq x c = true
      · rw [if_pos hle] at h
        unfold ciPre
        rw [hle, ih rest t h]
        rfl
      · rw [if_neg hle] at h
        exact absurd h (by simp)

theorem scanFirst_mailto_contains :
    ∀ fuel cs m, scanFirst mailtoAt fuel cs = some m → lcontainsCI mailtoChars cs = true := by
  intro fuel
  induction fuel with
  | zero => intro cs m h; exact absurd h (by simp [scanFirst])
  | succ f ih =>
    intro cs m h
    cases cs with
    | nil => exact absurd h (by simp [scanFirst])
    | cons c rest =>
      unfold scanFirst at h
      unfold lcontainsCI
      cases hm : mailtoAt (c :: rest) with
      | some g =>
        unfold mailtoAt at hm
        cases hd : ciDrop mailtoChars (c :: rest) with
        | some tail => rw [ciDrop_ciPre mailtoChars _ _ hd]; rfl
        | none => rw [hd] at hm; exact absurd hm (by simp)
      | none =>
        rw [hm] at h
        rw [ih rest m h]
        simp

theorem mailtoEmail_contains (s : String) (e : String) (h : mailtoEmail s = some e) :
    strContainsCI s "mailto:" = true := by
  unfold mailtoEmail at h
  rcases Option.map_eq_some'.mp h with ⟨m, hm, _⟩
  have hlit : ("mailto:").data = mailtoChars := by decide
  unfold strContainsCI
  rw [hlit]
  exact scanFirst_mailto_contains _ _ _ hm

theorem method1_cons_skip (b : Anchor) (l : List Anchor)
    (hb : mailtoEmail b.href = none) : method1Email (b :: l) = method1Email l := by
  unfold method1Email
  rw [List.filter_cons]
  by_cases hf : strContainsCI b.href "mailto:" = true
  · rw [if_pos (by simpa using hf), List.findSome?_cons]
    simp [hb]
  · rw [if_neg (by simpa using hf)]

theorem method1_append_none (pre : List Anchor) (rest : List Anchor)
    (hpre : ∀ b ∈ pre, mailtoEmail b.href = none) :
    method1Email (pre ++ rest) = method1Email rest := by
  induction pre with
  | nil => rfl
  | cons b bs ih =>
    rw [List.cons_append, method1_cons_skip b _ (hpre b (by simp))]
    exact ih (fun x hx => hpre x (by simp [hx]))

/-- C4: a document with a mailto anchor whose target parses under the
mailto-email search yields exactly the first such anchor's address,
lowercased, whatever the weaker tiers would have produced. -/
theorem spec_C4_mailto_wins (d : HtmlDoc) (pre post : List Anchor) (a : Anchor)
    (addr : String) (hsplit : d.anchors = pre ++ a :: post)
    (hpre : ∀ b ∈ pre, mailtoEmail b.href = none)
    (ha : mailtoEmail a.href = some addr) :
    (extractContactInfoFromWebsite d).email = some (strLower addr) := by
  have hm1 : method1Email d.anchors = some (strLower addr) := by
    rw [hsplit, method1_append_none pre _ hpre]
    unfold method1Email
    rw [List.filter_cons, if_pos (by simpa using mailtoEmail_contains _ _ ha),
      List.findSome?_cons]
    simp [ha]
  simp [extractContactInfoFromWebsite, hm1]


theorem spec_C4_mailto_wins_witness :
    (extractContactInfoFromWebsite c4Doc).email = some (strLower "Foo@Bar.com") :=
  spec_C4_mailto_wins c4Doc [] [] c4Anchor "Foo@Bar.com" rfl (by simp) (by decide)

theorem dedupKeepFirst_sublist (l : List String) :
    ∀ seen, (dedupKeepFirst seen l).Sublist l := by
  induction l with
  | nil => intro seen; simp [dedupKeepFirst]
  | cons x xs ih =>
    intro seen
    unfold dedupKeepFirst
    by_cases h : seen.contains x = true
    · rw [if_pos h]
      exact (ih seen).cons x
    · rw [if_neg h]
      exact (ih (x :: seen)).cons₂ x

theorem dedupKeepFirst_nodup (l : List String) :
    ∀ seen, (dedupKeepFirst seen l).Nodup ∧
      ∀ x ∈ dedupKeepFirst seen l, seen.contains x = false := by
  induction l with
  | nil => intro seen; simp [dedupKeepFirst]
  | cons x xs ih =>
    intro seen
    unfold dedupKeepFirst
    by_cases h : seen.contains x = true
    · rw [if_pos h]
      exact ih seen
    · rw [if_neg h]
      refine ⟨List.nodup_cons.mpr ⟨fun hx => ?_, (ih (x :: seen)).1⟩, ?_⟩
      · have := (ih (x :: seen)).2 x hx
        simp [List.contains_cons] at this
      · intro y hy
        rcases List.mem_cons.mp hy with rfl | hy2
        · simpa using h
        · have := (ih (x :: seen)).2 y hy2
          simp [List.contains_cons] at this ⊢
          exact this.2

theorem candidate_netloc (anchors : List Anchor) (baseUrl : String) (u : String)
    (h : u ∈ candidateContactPages anchors baseUrl) : netlocOf u = netlocOf baseUrl := by
  unfold candidateContactPages at h
  rcases List.mem_filterMap.mp h with ⟨a, _, hfa⟩
  by_cases hq : anchorQualifies a = true
  · rw [if_pos hq] at hfa
    by_cases hn : (netlocOf (pyUrljoin baseUrl a.href) == netlocOf baseUrl) = true
    · rw [if_pos hn] at hfa
      have hu : pyUrljoin baseUrl a.href = u := by simpa using hfa
      rw [← hu]
      exact eq_of_beq hn
    · rw [if_neg hn] at hfa
      exact absurd hfa (by simp)
  · rw [if_neg hq] at hfa
    exact absurd hfa (by simp)

/-- C5: find_contact_pages returns at most three URLs, every one with the
base URL's netloc, without duplicates and in first-seen candidate order; a
document with no keyword-qualifying anchor yields the empty list. -/
theorem spec_C5_findContactPages (anchors : List Anchor) (baseUrl : String) :
    (findContactPages anchors baseUrl).length ≤ 3 ∧
    (∀ u ∈ findContactPages anchors baseUrl, netlocOf u = netlocOf baseUrl) ∧
    (findContactPages anchors baseUrl).Nodup ∧
    (findContactPages anchors baseUrl).Sublist (candidateContactPages anchors baseUrl) ∧
    ((∀ a ∈ anchors, anchorQualifies a = false) → findContactPages anchors baseUrl = []) := by
  have hsub : (findContactPages anchors baseUrl).Sublist
      (candidateContactPages anchors baseUrl) := by
    unfold findContactPages
    exact (List.take_sublist _ _).trans (dedupKeepFirst_sublist _ [])
  refine ⟨?_, ?_, ?_, hsub, ?_⟩
  · unfold findContactPages
    exact List.length_take_le _ _
  · intro u hu
    exact candidate_netloc anchors baseUrl u (hsub.mem hu)
  · unfold findContactPages
    exact ((dedupKeepFirst_nodup _ []).1).sublist (List.take_sublist _ _)
  · intro hnone
    unfold findContactPages
    have hcand : candidateContactPages anchors baseUrl = [] := by
      unfold candidateContactPages
      rw [List.filterMap_eq_nil_iff]
      intro a ha
      rw [if_neg (by simp [hnone a ha])]
    rw [hcand]
    rfl

theorem spec_C5_findContactPages_witness :
    findContactPages [{ href := "/shop", text := "shop" }] "http://x.com" = [] :=
  (spec_C5_findContactPages [{ href := "/shop", text := "shop" }] "http://x.com").2.2.2.2
    (by intro a ha; simp at ha; subst ha; decide)

theorem clean_none_name (r : RawRecord) (h : r.business_name = some none) :
    (cleanContactData r).business_name = none := by
  simp [cleanContactData, h]

theorem removeDuplicatesAux_error (l : List CleanedRecord) :
    ∀ seen, (∃ r ∈ l, r.business_name = none) →
      ∃ msg, removeDuplicatesAux seen l = .error msg := by
  induction l with
  | nil =>
    intro seen h
    rcases h with ⟨r, hr, _⟩
    simp at hr
  | cons item rest ih =>
    intro seen h
    cases hb : item.business_name with
    | none =>
      exact ⟨"AttributeError: NoneType object has no attribute lower",
        by simp only [removeDuplicatesAux, hb]⟩
    | some name =>
      have h2 : ∃ r ∈ rest, r.business_name = none := by
        rcases h with ⟨r, hr, hrn⟩
        rcases List.mem_cons.mp hr with rfl | hr2
        · rw [hb] at hrn; exact absurd hrn (by simp)
        · exact ⟨r, hr2, hrn⟩
      simp only [removeDuplicatesAux, hb]
      by_cases hk : keyTruthy (strLower name, item.email, item.phone) = true
      · rw [if_neg (by simp [hk])]
        by_cases hm : keyMem (strLower name, item.email, item.phone) seen = true
        · rw [if_pos hm]
          exact ih seen h2
        · rw [if_neg hm]
          rcases ih ((strLower name, item.email, item.phone) :: seen) h2 with ⟨msg, hmsg⟩
          exact ⟨msg, by rw [hmsg]; rfl⟩
      · rw [if_pos (by simp [hk])]
        exact ih seen h2

/-- C3: a record whose business_name key holds None is cleaned to a None
business name, and remove_duplicates — hence process_scraped_data — raises
on any list containing such a record instead of returning a result. -/
theorem spec_C3_none_name_raises (l : List RawRecord) (term : String)
    (h : ∃ r ∈ l, r.business_name = some none) :
    (∀ r : RawRecord, r.business_name = some none →
      (cleanContactData r).business_name = none) ∧
    (∃ msg, removeDuplicates (l.map cleanContactData) = .error msg) ∧
    (∃ msg, processScrapedData l term = .error msg) := by
  have h2 : ∃ cr ∈ l.map cleanContactData, cr.business_name = none := by
    rcases h with ⟨r, hr, hrn⟩
    exact ⟨cleanContactData r, List.mem_map_of_mem _ hr, clean_none_name r hrn⟩
  have h3 := removeDuplicatesAux_error (l.map cleanContactData) [] h2
  refine ⟨clean_none_name, h3, ?_⟩
  rcases h3 with ⟨msg, hmsg⟩
  refine ⟨msg, ?_⟩
  unfold processScrapedData
  simp only [removeDuplicates, hmsg]

theorem spec_C3_none_name_raises_witness :
    (cleanContactData rawNoneName).business_name = none ∧
    processScrapedData [rawNoneName] "q" =
      .error "AttributeError: NoneType object has no attribute lower" :=
  ⟨(spec_C3_none_name_raises [rawNoneName] "q" ⟨rawNoneName, by simp, rfl⟩).1
      rawNoneName rfl,
    by rfl⟩

theorem pyTruthy_ne_none (x : Option String) (h : pyTruthy x = true) : x ≠ none := by
  cases x with
  | none => simp [pyTruthy] at h
  | some s => simp

/-- C9: every record in the data list of a successful process_scraped_data
response carries at least one of email, phone, website non-null. -/
theorem spec_C9_contact_invariant (l : List RawRecord) (term : String)
    (resp : ScrapeResponse) (h : processScrapedData l term = .ok resp) :
    ∀ r ∈ resp.data, r.email ≠ none ∨ r.phone ≠ none ∨ r.website ≠ none := by
  unfold processScrapedData at h
  cases hrem : removeDuplicates (l.map cleanContactData) with
  | error m =>
    simp only [hrem] at h
    exact absurd h (by simp)
  | ok uniq =>
    simp only [hrem] at h
    have hresp : structureResponse (uniq.filter hasAnyContact) term = resp := by
      simpa using h
    have hdata : resp.data = uniq.filter hasAnyContact := by
      rw [← hresp]
      rfl
    intro r hr
    rw [hdata] at hr
    have hp : hasAnyContact r = true := List.of_mem_filter hr
    unfold hasAnyContact at hp
    rcases Bool.or_eq_true_iff.mp hp with hp2 | hw
    · rcases Bool.or_eq_true_iff.mp hp2 with he | hph
      · exact Or.inl (pyTruthy_ne_none _ he)
      · exact Or.inr (Or.inl (pyTruthy_ne_none _ hph))
    · exact Or.inr (Or.inr (pyTruthy_ne_none _ hw))

theorem spec_C9_contact_invariant_witness :
    cleanedOk.email ≠ none ∨ cleanedOk.phone ≠ none ∨ cleanedOk.website ≠ none :=
  spec_C9_contact_invariant [rawOk] "q" (ScrapeResponse.mk "success" "q" 1 [cleanedOk])
    (by rfl) cleanedOk (by decide)

theorem dropLaterDups_fuel :
    ∀ n m (l : List CleanedRecord), l.length ≤ n → l.length ≤ m →
      dropLaterDups n l = dropLaterDups m l := by
  intro n
  induction n with
  | zero =>
    intro m l hn _
    have : l = [] := List.eq_nil_of_length_eq_zero (Nat.le_zero.mp hn)
    subst this
    cases m <;> rfl
  | succ k ih =>
    intro m l hn hm
    cases l with
    | nil => cases m <;> rfl
    | cons r rest =>
      cases m with
      | zero => simp at hm
      | succ m2 =>
        unfold dropLaterDups
        have hlen : (rest.filter (fun x => !(specKey x == specKey r))).length ≤ rest.length :=
          List.length_filter_le _ _
        have h1 : (rest.filter (fun x => !(specKey x == specKey r))).length ≤ k := by
          simp at hn; omega
        have h2 : (rest.filter (fun x => !(specKey x == specKey r))).length ≤ m2 := by
          simp at hm; omega
        rw [ih m2 _ h1 h2]

theorem removeDuplicatesAux_spec :
    ∀ n (l : List CleanedRecord) seen,
      (∀ r ∈ l, r.business_name ≠ none) → l.length ≤ n →
      removeDuplicatesAux seen l =
        .ok (dropLaterDups n (l.filter
          (fun r => keyTruthy (specKey r) && !(keyMem (specKey r) seen)))) := by
  intro n
  induction n with
  | zero =>
    intro l seen _ hn
    have : l = [] := List.eq_nil_of_length_eq_zero (Nat.le_zero.mp hn)
    subst this
    rfl
  | succ k ih =>
    intro l seen hnames hn
    cases l with
    | nil => rfl
    | cons item rest =>
      have hrestnames : ∀ r ∈ rest, r.business_name ≠ none :=
        fun r hr => hnames r (by simp [hr])
      have hrestlen : rest.length ≤ k := by simp at hn; omega
      cases hb : item.business_name with
      | none => exact absurd hb (hnames item (by simp))
      | some name =>
        have hkey : specKey item = (strLower name, item.email, item.phone) := by
          simp [specKey, hb]
        simp only [removeDuplicatesAux, hb, List.filter_cons, hkey]
        by_cases hk : keyTruthy (strLower name, item.email, item.phone) = true
        · by_cases hm : keyMem (strLower name, item.email, item.phone) seen = true
          · rw [if_neg (by simp [hk]), if_pos hm, if_neg (by simp [hk, hm])]
            rw [ih rest seen hrestnames hrestlen]
            congr 1
            exact dropLaterDups_fuel k (k + 1) _ (le_trans (List.length_filter_le _ _) hrestlen)
              (le_trans (List.length_filter_le _ _) (by omega))
          · rw [if_neg (by simp [hk]), if_neg hm, if_pos (by simp [hk, hm])]
            rw [ih rest ((strLower name, item.email, item.phone) :: seen) hrestnames hrestlen]
            simp only [Except.map]
            have hstep : dropLaterDups (k + 1)
                (item :: rest.filter (fun r => keyTruthy (specKey r) &&
                  !(keyMem (specKey r) seen))) =
                item :: dropLaterDups k
                  ((rest.filter (fun r => keyTruthy (specKey r) &&
                    !(keyMem (specKey r) seen))).filter
                      (fun x => !(specKey x == specKey item))) := rfl
            rw [hstep, hkey]
            have hfe : rest.filter (fun r => keyTruthy (specKey r) &&
                !(keyMem (specKey r) ((strLower name, item.email, item.phone) :: seen))) =
                (rest.filter (fun r => keyTruthy (specKey r) &&
                  !(keyMem (specKey r) seen))).filter
                    (fun x => !(specKey x == (strLower name, item.email, item.phone))) := by
              rw [List.filter_filter]
              apply List.filter_congr
              intro a _
              simp only [keyMem]
              cases h1 : keyTruthy (specKey a) <;>
              cases h2 : (specKey a == (strLower name, item.email, item.phone)) <;>
              cases h3 : keyMem (specKey a) seen <;> simp
            rw [hfe]
        · rw [if_pos (by simp [hk]), if_neg (by simp [hk])]
          rw [ih rest seen hrestnames hrestlen]
          congr 1
          exact dropLaterDups_fuel k (k + 1) _ (le_trans (List.length_filter_le _ _) hrestlen)
            (le_trans (List.length_filter_le _ _) (by omega))

/-- C8: on records whose business names are strings, remove_duplicates
returns exactly the spec's first-wins deduplication: records with an
entirely empty key are dropped, the first record of each key survives and
every later record with an equal key is discarded. -/
theorem spec_C8_removeDuplicates (l : List CleanedRecord)
    (h : ∀ r ∈ l, r.business_name ≠ none) :
    removeDuplicates l = .ok (specFirstWins l) := by
  have hmain := removeDuplicatesAux_spec l.length l [] h (le_refl _)
  unfold removeDuplicates specFirstWins
  rw [hmain]
  congr 2
  apply List.filter_congr
  intro a _
  simp [keyMem]

theorem spec_C8_removeDuplicates_witness :
    removeDuplicates [recA, recB] = .ok (specFirstWins [recA, recB]) ∧
    specFirstWins [recA, recB] = [recA] :=
  ⟨spec_C8_removeDuplicates [recA, recB] (by decide), by decide⟩

theorem method3Loop_not_excluded :
    ∀ els e, method3Loop els = some e →
      excludedEmailSubstrings3.any (fun p => strContainsSub e p) = false := by
  intro els
  induction els with
  | nil => intro e h; simp [method3Loop] at h
  | cons s rest ih =>
    intro e h
    unfold method3Loop at h
    cases hv : validEmails3 s.text with
    | nil =>
      rw [hv] at h
      exact ih e h
    | cons e0 tl =>
      rw [hv] at h
      simp only [Option.some.injEq] at h
      subst h
      have hmem : e0 ∈ validEmails3 s.text := by
        rw [hv]; exact List.mem_cons_self _ _
      unfold validEmails3 at hmem
      simpa using List.of_mem_filter hmem

theorem method5_not_excluded (src e : String) (h : method5Email src = some e) :
    excludedEmailSubstrings5.any (fun p => strContainsSub e p) = false := by
  unfold method5Email at h
  cases hf : (validEmails5 src).find? bizHit with
  | some e0 =>
    rw [hf] at h
    simp only [Option.some.injEq] at h
    subst h
    have hmem : e0 ∈ validEmails5 src := List.mem_of_find?_eq_some hf
    unfold validEmails5 at hmem
    simpa using List.of_mem_filter hmem
  | none =>
    rw [hf] at h
    rcases Option.map_eq_some'.mp h with ⟨e0, hh, he⟩
    subst he
    have hmem : e0 ∈ validEmails5 src := by
      cases hl : validEmails5 src with
      | nil => rw [hl] at hh; simp at hh
      | cons a t =>
        rw [hl] at hh
        simp only [List.head?_cons, Option.some.injEq] at hh
        subst hh
        exact List.mem_cons_self _ _
    unfold validEmails5 at hmem
    simpa using List.of_mem_filter hmem

/-- C1 counterexample: on the scenario-3 document, whose only email-like
string is image@2x.png, the extraction-plus-normalization chain returns
that address — which carries a denylist substring — rather than null,
because tier 4 (the obfuscated pattern) applies no denylist. -/
theorem spec_C1_counterexample :
    (extractContactInfoFromWebsite c1Doc).email = some "image@2x.png" ∧
    (cleanContactData c1Raw).email = some "image@2x.png" ∧
    strContainsSub (strLower "image@2x.png") "@2x.png" = true := by
  decide

/-- C1 amended: an email returned by tier 3 is free of the tier-3 denylist
substrings and an email returned by tier 5 is free of the tier-5 denylist
substrings, but tier 4 applies no denylist: a document whose only
email-like string is image@2x.png yields email image@2x.png. -/
theorem spec_C1_amended :
    (∀ els e, method3Email els = some e →
      excludedEmailSubstrings3.any (fun p => strContainsSub e p) = false) ∧
    (∀ src e, method5Email src = some e →
      excludedEmailSubstrings5.any (fun p => strContainsSub e p) = false) ∧
    (extractContactInfoFromWebsite c1Doc).email = some "image@2x.png" := by
  refine ⟨fun els e h => ?_, method5_not_excluded, by decide⟩
  exact method3Loop_not_excluded _ e h

theorem spec_C1_amended_witness :
    excludedEmailSubstrings3.any (fun p => strContainsSub "info@shop.com" p) = false :=
  spec_C1_amended.1 c1Elems "info@shop.com" (by decide)

theorem find?_decomp {α : Type} (p : α → Bool) :
    ∀ (l : List α) a, l.find? p = some a →
      ∃ pre post, l = pre ++ a :: post ∧ ∀ x ∈ pre, p x = false := by
  intro l
  induction l with
  | nil => intro a h; simp at h
  | cons x xs ih =>
    intro a h
    rw [List.find?_cons] at h
    cases hx : p x with
    | true =>
      rw [hx] at h
      simp only [Option.some.injEq] at h
      subst h
      exact ⟨[], xs, rfl, by simp⟩
    | false =>
      rw [hx] at h
      rcases ih a h with ⟨pre, post, hsplit, hpre⟩
      refine ⟨x :: pre, post, by rw [hsplit]; rfl, ?_⟩
      intro y hy
      rcases List.mem_cons.mp hy with rfl | hy2
      · exact hx
      · exact hpre y hy2

/-- C2 counterexample: on a document where no regex match has a local part
starting with a business token, tier 5 does not return the first
non-denylisted match: it returns the later match whose domain merely
contains a business token as a substring. -/
theorem spec_C2_counterexample :
    emailFindAll c2Doc.pageSource = ["bob@zzz.q|w", "zed@qmail.x|y"] ∧
    validEmails5 c2Doc.pageSource = ["bob@zzz.q|w", "zed@qmail.x|y"] ∧
    ((emailFindAll c2Doc.pageSource).all (fun e =>
      businessTokens.all (fun t => !(t.data.isPrefixOf (localPartOf e).data))) = true) ∧
    (extractContactInfoFromWebsite c2Doc).email = some "zed@qmail.x|y" ∧
    (some "zed@qmail.x|y" : Option String) ≠ some "bob@zzz.q|w" := by
  decide

/-- C2 amended: when tiers 1 to 4 find nothing, tier 5 prefers the first
non-denylisted match that contains a business token anywhere in the
lowercased address (a substring test, not a local-part-starts-with test)
over the first unfiltered match; with no such match the first
non-denylisted match, lowercased, is returned. -/
theorem spec_C2_amended (d : HtmlDoc)
    (h1 : method1Email d.anchors = none) (h2 : method2Email d.dataEmails = none)
    (h3 : method3Email d.elements = none) (h4 : method4Email d.pageSource = none) :
    ((∃ e ∈ validEmails5 d.pageSource, bizHit e = true) →
      ∃ pre e post, validEmails5 d.pageSource = pre ++ e :: post ∧ bizHit e = true ∧
        (∀ x ∈ pre, bizHit x = false) ∧
        (extractContactInfoFromWebsite d).email = some (strLower e)) ∧
    ((∀ e ∈ validEmails5 d.pageSource, bizHit e = false) →
      (extractContactInfoFromWebsite d).email =
        (validEmails5 d.pageSource).head?.map (fun e => strLower e)) := by
  have hext : (extractContactInfoFromWebsite d).email = method5Email d.pageSource := by
    simp [extractContactInfoFromWebsite, h1, h2, h3, h4]
  constructor
  · rintro ⟨e, hmem, hp⟩
    cases hf : (validEmails5 d.pageSource).find? bizHit with
    | none =>
      exact absurd hp (by simpa using List.find?_eq_none.mp hf e hmem)
    | some e1 =>
      rcases find?_decomp bizHit _ e1 hf with ⟨pre, post, hsplit, hpre⟩
      refine ⟨pre, e1, post, hsplit, List.find?_some hf, hpre, ?_⟩
      rw [hext]
      unfold method5Email
      rw [hf]
  · intro hall
    rw [hext]
    unfold method5Email
    cases hf : (validEmails5 d.pageSource).find? bizHit with
    | some e1 =>
      have hp := List.find?_some hf
      have hmem := List.mem_of_find?_eq_some hf
      rw [hall e1 hmem] at hp
      exact absurd hp (by simp)
    | none => rfl

theorem spec_C2_amended_witness :
    (extractContactInfoFromWebsite c2DocB).email =
      (validEmails5 c2DocB.pageSource).head?.map (fun e => strLower e) :=
  (spec_C2_amended c2DocB (by decide) (by decide) (by decide) (by decide)).2 (by decide)
